import Mathlib

/-
  Verification of the muxclaw job correlation and delivery protocol
  (src/cli.ts) against its natural-language specification.

  The TypeScript source is shallowly embedded: pure string manipulation is
  modelled on `List Char` (JavaScript string indices become list positions),
  and the effectful handlers (`createIngressHandler`, `processJob`,
  `sendSplitMessage`, `scanAndProcess`, the `egress` event loop) are modelled
  as functions from an explicit environment of operation outcomes to a trace
  of emitted effects plus a flag recording whether an exception escaped the
  function.  Log payloads are elided (no claim depends on the text of a log
  line); every other effect records the arguments the source passes.
-/

set_option linter.unusedVariables false

namespace Muxclaw

/-
  JavaScript string primitives used by cli.ts, on `List Char`.
  `trimChars` embeds `String.prototype.trim` (whitespace stripped from both
  ends), `firstIdxOf`/`lastIdxOf` embed `indexOf`/`lastIndexOf` for a single
  character (`none` standing for the JavaScript return value -1).
-/

def wsChar (c : Char) : Bool := c.isWhitespace

def trimChars (l : List Char) : List Char :=
  ((l.dropWhile wsChar).reverse.dropWhile wsChar).reverse

/-- Embeds the JavaScript `.trim()` calls that cli.ts performs on `String`s. -/
def strTrim (s : String) : String := String.mk (trimChars s.data)

def firstIdxOf : List Char → Char → Option Nat
  | [], _ => none
  | x :: xs, c => if x = c then some 0 else (firstIdxOf xs c).map (· + 1)

def lastIdxOf : List Char → Char → Option Nat
  | [], _ => none
  | x :: xs, c =>
    match lastIdxOf xs c with
    | some i => some (i + 1)
    | none => if x = c then some 0 else none

/-- Embeds `fileName.startsWith(',')` from the egress reconciler. -/
def startsWithComma (s : String) : Bool :=
  match s.data with
  | c :: _ => c == ','
  | [] => false

/-- Embeds `basename(path)`: the component after the last `/`.  (The paths the
reconciler receives from the watcher are file paths, never directory paths
with a trailing slash.) -/
def jsBasename (p : String) : String :=
  match lastIdxOf p.data '/' with
  | some i => String.mk (p.data.drop (i + 1))
  | none => p

/-
  Observable effects of the two handlers.  `log`/`logError` stand for
  `console.log`/`console.error` (payload elided); the remaining constructors
  record the arguments the source passes to the corresponding Deno / bot API
  call.  `download` stands for the whole `downloadAttachment` call
  (getFile + fetch + file write).
-/
inductive Effect where
  | log : Effect
  | logError : Effect
  | chatAction : Effect
  | mkdir (path : String) (mode : Nat) : Effect
  | download (fileId : String) (path : String) : Effect
  | writeFile (path : String) (content : String) : Effect
  | removeDir (path : String) : Effect
  | queueSubmit (fullId : String) : Effect
  | symlink (target : String) (linkPath : String) : Effect
  | sendChatAction (chatId : Int) : Effect
  | sendMessage (chatId : Int) (text : List Char) (replyTo : Int) : Effect
  | rename (src : String) (dst : String) : Effect
  | removeFile (path : String) : Effect
deriving DecidableEq, Repr

/- ===================== Ingress data model (cli.ts 1-245) ===================== -/

structure AttachmentInfo where
  fileId : String
  fileName : String
deriving DecidableEq, Repr

structure PhotoSize where
  file_id : String
deriving DecidableEq, Repr

structure DocumentAttachment where
  file_id : String
  file_name : Option String
  mime_type : Option String
deriving DecidableEq, Repr

structure AudioAttachment where
  file_id : String
  file_name : Option String
  mime_type : Option String
deriving DecidableEq, Repr

structure VoiceAttachment where
  file_id : String
  mime_type : Option String
deriving DecidableEq, Repr

structure ReplyMsg where
  text : Option String
  caption : Option String
deriving DecidableEq, Repr

/-- The fields of a (partial) Telegram message that cli.ts reads. -/
structure Msg where
  message_id : Option Int
  text : Option String
  caption : Option String
  photo : Option (List PhotoSize)
  document : Option DocumentAttachment
  audio : Option AudioAttachment
  voice : Option VoiceAttachment
  reply_to_message : Option ReplyMsg
deriving DecidableEq, Repr

/-- The fields of the grammY context that `createIngressHandler` reads. -/
structure IngressCtx where
  fromId : Option Int
  username : Option String
  chatId : Option Int
  message : Option Msg
deriving DecidableEq, Repr

/-- Embeds `mimeToExt` (cli.ts 159-175).  An empty mime string is falsy in
JavaScript, and `""` matches no key of the map, so the fallback is returned
either way. -/
def mimeToExt (mime : Option String) (fallback : String) : String :=
  match mime with
  | none => fallback
  | some m =>
    if m == "image/jpeg" then ".jpg"
    else if m == "image/png" then ".png"
    else if m == "image/gif" then ".gif"
    else if m == "image/webp" then ".webp"
    else if m == "audio/ogg" then ".ogg"
    else if m == "audio/mpeg" then ".mp3"
    else if m == "audio/mp4" then ".m4a"
    else if m == "application/pdf" then ".pdf"
    else if m == "text/plain" then ".txt"
    else fallback

/-- Embeds `extractAttachments` (cli.ts 191-222): photo (largest size last in
the array), then document, then audio, then voice. -/
def extractAttachments (m : Option Msg) : List AttachmentInfo :=
  match m with
  | none => []
  | some msg =>
    let fromPhoto : List AttachmentInfo :=
      match msg.photo with
      | some ps =>
        if ps.length > 0 then
          [{ fileId := match ps.getLast? with
               | some largest => largest.file_id
               | none => "<unknown>",
             fileName := "photo.jpg" }]
        else []
      | none => []
    let fromDoc : List AttachmentInfo :=
      match msg.document with
      | some doc =>
        [{ fileId := doc.file_id,
           fileName := match doc.file_name with
             | some n => n
             | none => "document" ++ mimeToExt doc.mime_type "" }]
      | none => []
    let fromAudio : List AttachmentInfo :=
      match msg.audio with
      | some au =>
        [{ fileId := au.file_id,
           fileName := match au.file_name with
             | some n => n
             | none => "audio" ++ mimeToExt au.mime_type ".mp3" }]
      | none => []
    let fromVoice : List AttachmentInfo :=
      match msg.voice with
      | some vo =>
        [{ fileId := vo.file_id,
           fileName := "voice" ++ mimeToExt vo.mime_type ".ogg" }]
      | none => []
    fromPhoto ++ fromDoc ++ fromAudio ++ fromVoice

/-- Embeds the text extraction `ctx.message?.text ?? ctx.message?.caption` with an empty-string default (cli.ts 258). -/
def msgTextOf (m : Option Msg) : String :=
  match m with
  | none => ""
  | some msg =>
    match msg.text with
    | some t => t
    | none => match msg.caption with
      | some c => c
      | none => ""

/-- Embeds the quoted-reply extraction (cli.ts 262-264). -/
def quoteOf (m : Option Msg) : String :=
  match m with
  | none => ""
  | some msg =>
    match msg.reply_to_message with
    | none => ""
    | some r =>
      match r.text with
      | some t => t
      | none => match r.caption with
        | some c => c
        | none => ""

/-- Embeds `userId != null && allowedIds.has(String(userId))` (cli.ts 255). -/
def isAllowedB (allowedIds : List String) (fromId : Option Int) : Bool :=
  match fromId with
  | some u => allowedIds.contains (toString u)
  | none => false

/-- Embeds `getMessageDir` (cli.ts 76-78): join of the messages root, the
channel and the source id. -/
def getMessageDir (dataDir channel id : String) : String :=
  dataDir ++ "/messages/" ++ channel ++ "/" ++ id

/-- Embeds the prompt assembly (cli.ts 335-345): start from the raw text,
prepend the quote block when the message quotes one, then prepend the
attachment manifest (and trim) when at least one attachment was staged. -/
def buildPrompt (text quote : String) (attachmentPaths : List String) : String :=
  let p1 := if quote == "" then text else "Quote: " ++ quote ++ "\n\n" ++ text
  if attachmentPaths.length > 0 then
    let list := String.intercalate "\n"
      (attachmentPaths.mapIdx (fun i p => toString (i + 1) ++ ". @" ++ p))
    strTrim ("Attachments:\n" ++ list ++ "\n\n" ++ p1)
  else p1

/-- Embeds `JSON.stringify(meta, null, 2)` for the `JobMeta` object literal
(cli.ts 393-403); an undefined `userId` is omitted by `JSON.stringify`. -/
def metaJson (chatId messageId : Int) (userId : Option Int) : String :=
  "\x7b\n  \"channel\": \"telegram\",\n  \"chatId\": " ++ toString chatId ++
    ",\n  \"messageId\": " ++ toString messageId ++
    (match userId with
     | some u => ",\n  \"userId\": " ++ toString u
     | none => "") ++ "\n\x7d"

/-- Outcome of each effectful operation the ingress handler performs; `true`
means the awaited promise resolves.  `nqResult = none` models `nqCmd.output()`
rejecting; `some (success, stdout)` models it resolving with that status and
captured stdout. -/
structure IngressEnv where
  replyAction1Ok : Bool
  mkdirMsgDirOk : Bool
  mkdirAttachDirOk : Bool
  downloadOk : List Bool
  removeMsgDirOk : Bool
  replyAction2Ok : Bool
  writePromptOk : Bool
  nqResult : Option (Bool × String)
  symlinkOk : Bool
  writeMetaOk : Bool
deriving DecidableEq, Repr

/-- How a phase of the ingress try-block ends: fall through to the next
statement, early `return`, or a thrown error (caught by the outer catch). -/
inductive PhaseOut where
  | cont : PhaseOut
  | ret : PhaseOut
  | threw : PhaseOut
deriving DecidableEq, Repr

/-- Embeds the per-attachment download loop (cli.ts 301-317): each iteration
attempts `downloadAttachment`; success appends the path and logs, failure
logs the error and is skipped. -/
def stageLoop (dl : List Bool) (attachDir : String) :
    List AttachmentInfo → Nat → List Effect × List String
  | [], _ => ([], [])
  | a :: rest, i =>
    let path := attachDir ++ "/" ++ a.fileName
    let r := stageLoop dl attachDir rest (i + 1)
    if dl.getD i false then
      (Effect.download a.fileId path :: Effect.log :: r.1, path :: r.2)
    else
      (Effect.download a.fileId path :: Effect.logError :: r.1, r.2)

/-- Embeds the attachment staging phase (cli.ts 294-333): create
`attachments/`, run the download loop; if nothing was staged remove the
attachments directory (failure ignored) and, for an attachment-only message,
remove the whole Message Directory and return. -/
def attachPhase (env : IngressEnv) (messageDir text : String)
    (atts : List AttachmentInfo) : List Effect × List String × PhaseOut :=
  if atts.isEmpty then ([], [], PhaseOut.cont)
  else
    let attachDir := messageDir ++ "/attachments"
    let e0 := [Effect.mkdir attachDir 493]
    if !env.mkdirAttachDirOk then (e0, [], PhaseOut.threw)
    else
      let st := stageLoop env.downloadOk attachDir atts 0
      if st.2.isEmpty then
        let e1 := e0 ++ st.1 ++ [Effect.removeDir attachDir]
        if text == "" then
          let e2 := e1 ++ [Effect.removeDir messageDir]
          if env.removeMsgDirOk then (e2, [], PhaseOut.ret)
          else (e2, [], PhaseOut.threw)
        else (e1, [], PhaseOut.cont)
      else (e0 ++ st.1, st.2, PhaseOut.cont)

/-- Embeds the tail of the try-block (cli.ts 347-405): second typing
acknowledgment, prompt write, `nq` submission, Job Link symlink (failure only
logged), `meta.json` write, and the final queued log line. -/
def commitPhase (dataDir : String) (env : IngressEnv) (messageDir : String)
    (chatId messageId : Int) (userId : Option Int) (prompt sourceId : String) :
    List Effect × Bool :=
  let e1 := [Effect.chatAction]
  if !env.replyAction2Ok then (e1, true)
  else
    let e2 := e1 ++ [Effect.writeFile (messageDir ++ "/prompt.txt") prompt]
    if !env.writePromptOk then (e2, true)
    else
      let e3 := e2 ++ [Effect.queueSubmit ("telegram:" ++ sourceId)]
      match env.nqResult with
      | none => (e3, true)
      | some r =>
        let jobFile := strTrim r.2
        if jobFile == "" || !r.1 then (e3 ++ [Effect.logError], false)
        else
          let jobLink := dataDir ++ "/" ++ jobFile ++ ".d"
          let e4 := e3 ++ [Effect.symlink messageDir jobLink] ++
            (if env.symlinkOk then [] else [Effect.logError])
          let e5 := e4 ++
            [Effect.writeFile (messageDir ++ "/meta.json")
              (metaJson chatId messageId userId)]
          if !env.writeMetaOk then (e5, true)
          else (e5 ++ [Effect.log], false)

/-- Embeds the whole try-block of the handler (cli.ts 288-405).  The second
component is true when an exception reached the outer catch. -/
def ingressTryBody (dataDir : String) (env : IngressEnv)
    (chatId messageId : Int) (userId : Option Int) (text quote : String)
    (atts : List AttachmentInfo) : List Effect × Bool :=
  let sourceId := toString chatId ++ "_" ++ toString messageId
  let messageDir := getMessageDir dataDir "telegram" sourceId
  let e0 := [Effect.mkdir messageDir 493]
  if !env.mkdirMsgDirOk then (e0, true)
  else
    let ap := attachPhase env messageDir text atts
    match ap.2.2 with
    | PhaseOut.threw => (e0 ++ ap.1, true)
    | PhaseOut.ret => (e0 ++ ap.1, false)
    | PhaseOut.cont =>
      let prompt := buildPrompt text quote ap.2.1
      let cp := commitPhase dataDir env messageDir chatId messageId userId
        prompt sourceId
      (e0 ++ ap.1 ++ cp.1, cp.2)

/-- Embeds the handler returned by `createIngressHandler` (cli.ts 251-409).
Returns the trace of effects and whether an exception escaped the handler.
The first `replyWithChatAction` (cli.ts 286) sits outside the try-block, so
its rejection escapes; every failure inside the try-block is caught at
cli.ts 406-408 (logged, normal return). -/
def ingressHandler (dataDir : String) (allowedIds : List String)
    (ctx : IngressCtx) (env : IngressEnv) : List Effect × Bool :=
  let userId := ctx.fromId
  let isAllowed := isAllowedB allowedIds userId
  let text := msgTextOf ctx.message
  let atts := extractAttachments ctx.message
  let quote := quoteOf ctx.message
  let e0 := [Effect.log]
  match ctx.chatId, ctx.message.bind (fun m => m.message_id) with
  | some cid, some mid =>
    if !isAllowed || (text == "" && atts.isEmpty) then
      (e0 ++ [Effect.log], false)
    else
      let e1 := e0 ++ [Effect.chatAction]
      if !env.replyAction1Ok then (e1, true)
      else
        let body := ingressTryBody dataDir env cid mid userId text quote atts
        (e1 ++ body.1 ++ (if body.2 then [Effect.logError] else []), false)
  | _, _ => (e0 ++ [Effect.log], false)

/- ===================== Egress data model (cli.ts 443-596) ===================== -/

/-- Routing metadata parsed from meta.json (cli.ts 23-29). -/
structure JobMeta where
  chatId : Int
  messageId : Int
  userId : Option Int
deriving DecidableEq, Repr

/-- Embeds the output preparation of processJob (cli.ts 565-570): trim the
raw capture; when the trimmed text holds two distinct newline positions,
slice out everything strictly between the first and the last newline and trim
again, otherwise use the trimmed text verbatim. -/
def stripOutput (raw : List Char) : List Char :=
  match firstIdxOf (trimChars raw) '\n', lastIdxOf (trimChars raw) '\n' with
  | some f, some l =>
    if f ≠ l then
      trimChars (((trimChars raw).drop (f + 1)).take (l - (f + 1)))
    else trimChars raw
  | _, _ => trimChars raw

theorem trimChars_length_le (l : List Char) : (trimChars l).length ≤ l.length := by
  unfold trimChars
  calc (((l.dropWhile wsChar).reverse.dropWhile wsChar).reverse).length
      = ((l.dropWhile wsChar).reverse.dropWhile wsChar).length :=
        List.length_reverse _
    _ ≤ (l.dropWhile wsChar).reverse.length :=
        (List.dropWhile_sublist _).length_le
    _ = (l.dropWhile wsChar).length := List.length_reverse _
    _ ≤ l.length := (List.dropWhile_sublist _).length_le

theorem trimChars_cons_ws (x : Char) (l : List Char) (h : wsChar x = true) :
    trimChars (x :: l) = trimChars l := by
  unfold trimChars
  rw [List.dropWhile_cons, if_pos h]

theorem lastIdxOf_eq_zero {l : List Char} {c : Char}
    (h : lastIdxOf l c = some 0) : ∃ tl, l = c :: tl := by
  cases l with
  | nil => simp [lastIdxOf] at h
  | cons x xs =>
    unfold lastIdxOf at h
    rcases hx : lastIdxOf xs c with _ | i
    · rw [hx] at h
      by_cases hxc : x = c
      · exact ⟨xs, by rw [hxc]⟩
      · simp [hxc] at h
    · rw [hx] at h
      simp at h

/-- Embeds the split-point computation of one loop iteration of
sendSplitMessage (cli.ts 501-504): the last newline at index at most 4096,
hard cut at 4096 when there is none. -/
def chunkSplitIdx (remaining : List Char) : Nat :=
  match lastIdxOf (remaining.take 4097) '\n' with
  | some i => i
  | none => 4096

theorem chunk_rest_lt (remaining : List Char) (h : remaining.length > 4096) :
    (trimChars (remaining.drop (chunkSplitIdx remaining))).length <
      remaining.length := by
  by_cases h0 : chunkSplitIdx remaining = 0
  · have hL : lastIdxOf (remaining.take 4097) '\n' = some 0 := by
      unfold chunkSplitIdx at h0
      rcases hE : lastIdxOf (remaining.take 4097) '\n' with _ | i
      · rw [hE] at h0; simp at h0
      · rw [hE] at h0
        simp at h0
        subst h0
        rfl
    obtain ⟨tl, htl⟩ := lastIdxOf_eq_zero hL
    cases remaining with
    | nil => simp at h
    | cons x xs =>
      have h4097 : (4097 : Nat) = 4096 + 1 := rfl
      rw [h4097, List.take_succ_cons] at htl
      have hx : x = '\n' := by
        have := List.head_eq_of_cons_eq htl
        exact this
      rw [h0, List.drop_zero, hx, trimChars_cons_ws '\n' xs (by decide)]
      have := trimChars_length_le xs
      simp only [List.length_cons]
      omega
  · have h1 : 1 ≤ chunkSplitIdx remaining := Nat.one_le_iff_ne_zero.mpr h0
    calc (trimChars (remaining.drop (chunkSplitIdx remaining))).length
        ≤ (remaining.drop (chunkSplitIdx remaining)).length :=
          trimChars_length_le _
      _ = remaining.length - chunkSplitIdx remaining := by
          simp [List.length_drop]
      _ < remaining.length := Nat.sub_lt (by omega) h1

/-- Embeds the chunk sequence produced by the splitting loop of
sendSplitMessage (cli.ts 497-521): while the remainder exceeds 4096
characters, split at chunkSplitIdx, emit the trimmed chunk when nonempty and
continue on the trimmed remainder; finally emit the remainder itself when
nonempty (without a further trim). -/
def chunkLoop (remaining : List Char) : List (List Char) :=
  if h : remaining.length > 4096 then
    let chunk := trimChars (remaining.take (chunkSplitIdx remaining))
    let rest := trimChars (remaining.drop (chunkSplitIdx remaining))
    (if chunk.isEmpty then [] else [chunk]) ++ chunkLoop rest
  else if remaining.isEmpty then [] else [remaining]
termination_by remaining.length
decreasing_by exact chunk_rest_lt remaining h

/-- Embeds the effectful splitting loop of sendSplitMessage (cli.ts 497-521)
with per-call send outcomes: ok i tells whether the i-th sendMessage call
resolves; a rejected send escapes (second component false records that an
exception propagated). -/
def sendSplitLoop (chatId replyTo : Int) (ok : Nat → Bool)
    (remaining : List Char) (i : Nat) : List Effect × Bool :=
  if h : remaining.length > 4096 then
    let chunk := trimChars (remaining.take (chunkSplitIdx remaining))
    let rest := trimChars (remaining.drop (chunkSplitIdx remaining))
    if chunk.isEmpty then sendSplitLoop chatId replyTo ok rest i
    else if ok i then
      let r := sendSplitLoop chatId replyTo ok rest (i + 1)
      (Effect.sendMessage chatId chunk replyTo :: r.1, r.2)
    else ([Effect.sendMessage chatId chunk replyTo], false)
  else if remaining.isEmpty then ([], true)
  else if ok i then ([Effect.sendMessage chatId remaining replyTo], true)
  else ([Effect.sendMessage chatId remaining replyTo], false)
termination_by remaining.length
decreasing_by all_goals exact chunk_rest_lt remaining h

/-- Embeds sendSplitMessage (cli.ts 490-522).  The escaping performed by the
external telegram-markdown-v2 library (cli.ts 496) is passed in as esc: that
library is an external collaborator, so the claims about the splitter are
stated for every escaped text. -/
def sendSplitMessage (esc : List Char → List Char) (chatId : Int)
    (text : List Char) (replyTo : Int) (ok : Nat → Bool) :
    List Effect × Bool :=
  sendSplitLoop chatId replyTo ok (esc text) 0

/-- Outcome of each effectful operation processJob performs.  meta = none
models the meta.json read or parse throwing; raw = none models the job file
read throwing; lstatIsSymlink = none models lstat throwing (caught). -/
structure EgressEnv where
  meta : Option JobMeta
  raw : Option (List Char)
  sendActionOk : Bool
  sendOk : Nat → Bool
  renameOk : Bool
  lstatIsSymlink : Option Bool

/-- Embeds processJob (cli.ts 551-596).  Returns the trace of effects and
whether an exception escaped to the per-job boundary of the caller. -/
def processJob (esc : List Char → List Char) (dataDir scanDir jobName : String)
    (env : EgressEnv) : List Effect × Bool :=
  let logPath := scanDir ++ "/" ++ jobName
  let jobDir := dataDir ++ "/" ++ jobName ++ ".d"
  match env.meta with
  | none => ([], true)
  | some meta =>
    match env.raw with
    | none => ([], true)
    | some rawFile =>
      let output := stripOutput rawFile
      if output.isEmpty then ([Effect.log], false)
      else
        let e1 := [Effect.sendChatAction meta.chatId]
        if !env.sendActionOk then (e1, true)
        else
          let s := sendSplitMessage esc meta.chatId output meta.messageId
            env.sendOk
          if !s.2 then (e1 ++ s.1, true)
          else
            let e2 := e1 ++ s.1 ++
              [Effect.rename logPath (jobDir ++ "/" ++ jobName)]
            if !env.renameOk then (e2, true)
            else
              let jobLink := dataDir ++ "/" ++ jobName ++ ".d"
              let e3 := e2 ++
                (match env.lstatIsSymlink with
                 | some true => [Effect.removeFile jobLink]
                 | _ => [])
              (e3 ++ [Effect.log], false)

/-- A directory entry as seen by Deno.readDir. -/
structure DirEntry where
  name : String
  isFile : Bool
deriving DecidableEq, Repr

/-- Embeds the discovery part of scanAndProcess (cli.ts 528-545): keep the
regular files whose name starts with a comma, sorted by name; these are the
jobs handed to processJob in order. -/
def scanJobs (entries : List DirEntry) : List String :=
  ((entries.filter (fun e => e.isFile && startsWithComma e.name)).map
    (fun e => e.name)).mergeSort (fun a b => a ≤ b)

/-- A filesystem event as seen by Deno.watchFs. -/
structure FsEvent where
  kind : String
  paths : List String
deriving DecidableEq, Repr

/-- Embeds one iteration of the egress watch loop (cli.ts 463-487): access
and other events are skipped entirely; for each path the base filename must
start with a comma, must not be mid-flight in the processing set, and both
the job file and its meta.json must stat successfully; the surviving
filenames are the ones handed to processJob.  statOk gives the Deno.stat
outcome for the event path, metaOk the one for getJobMeta(fileName). -/
def egressEventNames (processing : List String) (statOk : String → Bool)
    (metaOk : String → Bool) (ev : FsEvent) : List String :=
  if ev.kind == "access" || ev.kind == "other" then []
  else ev.paths.filterMap (fun path =>
    let fileName := jsBasename path
    if !startsWithComma fileName then none
    else if processing.contains fileName then none
    else if !(statOk path && metaOk fileName) then none
    else some fileName)

/-- Modelled from the wording of claim C1: the quoted-reply block first, then the
attachment manifest (one line per successfully staged attachment, 1-indexed),
then the raw text, with surrounding whitespace trimmed.  Kept solely to
compare the claimed ordering with buildPrompt. -/
def claimOrderPrompt (text quote : String) (paths : List String) : String :=
  strTrim ("Quote: " ++ quote ++ "\n\n" ++ "Attachments:\n" ++
    String.intercalate "\n"
      (paths.mapIdx (fun i p => toString (i + 1) ++ ". @" ++ p)) ++
    "\n\n" ++ text)

/-- The ordering the code actually implements, written out directly:
attachment manifest first, then the quoted-reply block, then the raw text,
trimmed. -/
def amendedOrderPrompt (text quote : String) (paths : List String) : String :=
  strTrim ("Attachments:\n" ++
    String.intercalate "\n"
      (paths.mapIdx (fun i p => toString (i + 1) ++ ". @" ++ p)) ++
    "\n\n" ++ "Quote: " ++ quote ++ "\n\n" ++ text)

/- ===================== Concrete sample fixtures ===================== -/

/-- A plain text message, mirroring the test fixture of the repository. -/
def sampleMsg : Msg where
  message_id := some 789
  text := some "hello"
  caption := none
  photo := none
  document := none
  audio := none
  voice := none
  reply_to_message := none

/-- A message carrying both a quoted reply and a photo attachment. -/
def quotedPhotoMsg : Msg where
  message_id := some 789
  text := none
  caption := some "caption text"
  photo := some [{ file_id := "small" }, { file_id := "big" }]
  document := none
  audio := none
  voice := none
  reply_to_message := some { text := some "earlier message", caption := none }

def sampleCtx : IngressCtx where
  fromId := some 123
  username := some "user"
  chatId := some 456
  message := some sampleMsg

def quotedPhotoCtx : IngressCtx where
  fromId := some 123
  username := some "user"
  chatId := some 456
  message := some quotedPhotoMsg

def deniedCtx : IngressCtx := { sampleCtx with fromId := some 999 }

def allOkEnv : IngressEnv where
  replyAction1Ok := true
  mkdirMsgDirOk := true
  mkdirAttachDirOk := true
  downloadOk := [true, true]
  removeMsgDirOk := true
  replyAction2Ok := true
  writePromptOk := true
  nqResult := some (true, ",job")
  symlinkOk := true
  writeMetaOk := true

def egOkEnv : EgressEnv where
  meta := some { chatId := 123, messageId := 456, userId := none }
  raw := some "echo\nanswer line\nexit".data
  sendActionOk := true
  sendOk := fun _ => true
  renameOk := true
  lstatIsSymlink := some true

/- ===================== General string lemmas ===================== -/

theorem lastIdxOf_of_not_mem {c : Char} :
    ∀ {l : List Char}, c ∉ l → lastIdxOf l c = none
  | [], _ => rfl
  | x :: xs, h => by
    unfold lastIdxOf
    rw [lastIdxOf_of_not_mem (fun hm => h (List.mem_cons_of_mem _ hm))]
    rw [if_neg (fun he => h (by rw [← he]; exact List.mem_cons_self _ _))]

theorem firstIdxOf_eq_lastIdxOf_of_count_le_one {c : Char} :
    ∀ {l : List Char}, l.count c ≤ 1 → firstIdxOf l c = lastIdxOf l c := by
  intro l
  induction l with
  | nil => intro _; rfl
  | cons x xs ih =>
    intro h
    by_cases hx : x = c
    · subst hx
      have hcnt : xs.count x = 0 := by
        rw [List.count_cons] at h
        simp at h
        omega
      have hnm : x ∉ xs := List.count_eq_zero.mp hcnt
      unfold firstIdxOf lastIdxOf
      rw [lastIdxOf_of_not_mem hnm]
      simp
    · have hcnt : xs.count c ≤ 1 := by
        rw [List.count_cons] at h
        omega
      unfold firstIdxOf lastIdxOf
      rw [if_neg hx, ih hcnt]
      rcases lastIdxOf xs c with _ | i
      · simp [hx]
      · simp

theorem firstIdxOf_append {c : Char} :
    ∀ (xs ys : List Char), c ∉ xs →
      firstIdxOf (xs ++ c :: ys) c = some xs.length
  | [], ys, _ => by
    unfold firstIdxOf
    simp
  | x :: xs, ys, h => by
    have hx : ¬x = c := fun he => h (by rw [he]; exact List.mem_cons_self _ _)
    have ht : c ∉ xs := fun hm => h (List.mem_cons_of_mem _ hm)
    show firstIdxOf (x :: (xs ++ c :: ys)) c = some (x :: xs).length
    unfold firstIdxOf
    rw [if_neg hx, firstIdxOf_append xs ys ht]
    simp

theorem lastIdxOf_append {c : Char} :
    ∀ (xs ys : List Char), c ∉ ys →
      lastIdxOf (xs ++ c :: ys) c = some xs.length
  | [], ys, h => by
    simp only [List.nil_append, List.length_nil]
    unfold lastIdxOf
    rw [lastIdxOf_of_not_mem h]
    simp
  | x :: xs, ys, h => by
    show lastIdxOf (x :: (xs ++ c :: ys)) c = some (x :: xs).length
    unfold lastIdxOf
    rw [lastIdxOf_append xs ys h]
    simp

theorem lastIdxOf_lt_length {c : Char} :
    ∀ {l : List Char} {i : Nat}, lastIdxOf l c = some i → i < l.length
  | [], i, h => by simp [lastIdxOf] at h
  | x :: xs, i, h => by
    unfold lastIdxOf at h
    rcases hx : lastIdxOf xs c with _ | j
    · rw [hx] at h
      by_cases hxc : x = c
      · rw [if_pos hxc] at h
        cases h
        simp
      · rw [if_neg hxc] at h
        cases h
    · rw [hx] at h
      cases h
      have := lastIdxOf_lt_length hx
      simp only [List.length_cons]
      omega

theorem trimChars_eq_rdrop (l : List Char) :
    trimChars l = List.rdropWhile wsChar (List.dropWhile wsChar l) := rfl

theorem dropWhile_trimChars (l : List Char) :
    List.dropWhile wsChar (trimChars l) = trimChars l := by
  rw [trimChars_eq_rdrop, List.dropWhile_eq_self_iff]
  intro hl
  have hpre := List.rdropWhile_prefix wsChar (List.dropWhile wsChar l)
  have hlen : 0 < (List.dropWhile wsChar l).length :=
    lt_of_lt_of_le hl hpre.length_le
  have hhead := List.dropWhile_get_zero_not wsChar l hlen
  have hget := hpre.getElem (n := 0) hl
  simpa [List.get_eq_getElem, hget] using hhead

theorem trimChars_idem (l : List Char) :
    trimChars (trimChars l) = trimChars l := by
  rw [trimChars_eq_rdrop (trimChars l), dropWhile_trimChars,
    trimChars_eq_rdrop l, List.rdropWhile_idempotent]

theorem dropWhile_of_none (p : Char → Bool) :
    ∀ l : List Char, (∀ c ∈ l, p c = false) → List.dropWhile p l = l
  | [], _ => rfl
  | x :: xs, h => by
    rw [List.dropWhile_cons, if_neg (by simp [h x (List.mem_cons_self _ _)])]

theorem trimChars_of_no_ws {l : List Char}
    (h : ∀ c ∈ l, wsChar c = false) : trimChars l = l := by
  unfold trimChars
  rw [dropWhile_of_none wsChar l h,
    dropWhile_of_none wsChar l.reverse (fun c hc => h c (List.mem_reverse.mp hc)),
    List.reverse_reverse]

/- ===================== Output stripping lemmas (C4) ===================== -/

theorem stripOutput_le_one_newline {raw : List Char}
    (h : (trimChars raw).count '\n' ≤ 1) : stripOutput raw = trimChars raw := by
  unfold stripOutput
  rw [firstIdxOf_eq_lastIdxOf_of_count_le_one h]
  rcases hE : lastIdxOf (trimChars raw) '\n' with _ | i <;> simp

theorem stripOutput_multiline {raw l0 mid l2 : List Char}
    (ht : trimChars raw = l0 ++ '\n' :: (mid ++ '\n' :: l2))
    (h0 : '\n' ∉ l0) (h2 : '\n' ∉ l2) : stripOutput raw = trimChars mid := by
  unfold stripOutput
  rw [ht]
  have hf : firstIdxOf (l0 ++ '\n' :: (mid ++ '\n' :: l2)) '\n' =
      some l0.length := firstIdxOf_append l0 _ h0
  have hl : lastIdxOf (l0 ++ '\n' :: (mid ++ '\n' :: l2)) '\n' =
      some (l0.length + 1 + mid.length) := by
    have hres := lastIdxOf_append (c := '\n') (l0 ++ '\n' :: mid) l2 h2
    have hassoc : (l0 ++ '\n' :: mid) ++ '\n' :: l2 =
        l0 ++ '\n' :: (mid ++ '\n' :: l2) := by simp
    rw [hassoc] at hres
    rw [hres]
    simp [List.length_append]
    omega
  rw [hf, hl]
  simp only []
  rw [if_pos (by omega : l0.length ≠ l0.length + 1 + mid.length)]
  congr 1
  have hsplit : l0 ++ '\n' :: (mid ++ '\n' :: l2) =
      (l0 ++ ['\n']) ++ (mid ++ '\n' :: l2) := by simp
  rw [hsplit]
  have hlen : l0.length + 1 = (l0 ++ ['\n']).length := by simp
  rw [hlen, List.drop_left, Nat.add_sub_cancel_left]
  have := List.take_left mid ('\n' :: l2)
  simp [this]

/-- Claim C4: a trimmed raw output with at most one newline (one line, or two
lines with no interior) is used verbatim by the header/footer stripper of
processJob; with more than two lines, exactly the first and last line are
removed and the interior is trimmed. -/
theorem claim_C4 :
    (∀ raw : List Char, (trimChars raw).count '\n' ≤ 1 →
      stripOutput raw = trimChars raw) ∧
    (∀ raw l0 mid l2 : List Char,
      trimChars raw = l0 ++ '\n' :: (mid ++ '\n' :: l2) →
      '\n' ∉ l0 → '\n' ∉ l2 →
      stripOutput raw = trimChars mid) :=
  ⟨fun _ h => stripOutput_le_one_newline h,
   fun _ _ _ _ ht h0 h2 => stripOutput_multiline ht h0 h2⟩

theorem claim_C4_witness :
    stripOutput "line1\nline2".data = trimChars "line1\nline2".data ∧
    stripOutput "hdr\n mid \nftr".data = trimChars " mid ".data :=
  ⟨claim_C4.1 "line1\nline2".data (by decide),
   claim_C4.2 "hdr\n mid \nftr".data "hdr".data " mid ".data "ftr".data
     (by decide) (by decide) (by decide)⟩

/-- Claim C5: when the stripped interior is empty, processJob only logs:
no chat action, no message delivery, and a normal return. -/
theorem claim_C5 (esc : List Char → List Char) (dataDir scanDir jobName : String)
    (env : EgressEnv) (m : JobMeta) (r : List Char)
    (hm : env.meta = some m) (hr : env.raw = some r)
    (hout : stripOutput r = []) :
    processJob esc dataDir scanDir jobName env = ([Effect.log], false) := by
  unfold processJob
  rw [hm, hr]
  simp [hout]

theorem claim_C5_witness :
    processJob (fun s => s) "/data" "/q/completed" ",job"
      { egOkEnv with raw := some "cmd\n   \nexit 0".data } =
      ([Effect.log], false) :=
  claim_C5 (fun s => s) "/data" "/q/completed" ",job" _
    { chatId := 123, messageId := 456, userId := none }
    "cmd\n   \nexit 0".data rfl rfl (by decide)

/-- Claim C7: a message whose sender is not in the allow-list produces only
log lines: no directory creation, no download, no file write, no queue
submission, no symlink, and a normal return. -/
theorem claim_C7 (dataDir : String) (allowedIds : List String)
    (ctx : IngressCtx) (env : IngressEnv)
    (h : isAllowedB allowedIds ctx.fromId = false) :
    (∀ e ∈ (ingressHandler dataDir allowedIds ctx env).1, e = Effect.log) ∧
    (ingressHandler dataDir allowedIds ctx env).2 = false := by
  have key : ingressHandler dataDir allowedIds ctx env =
      ([Effect.log, Effect.log], false) := by
    unfold ingressHandler
    split
    · simp [h]
    · rfl
  rw [key]
  refine ⟨?_, rfl⟩
  intro e he
  simp at he
  exact he

theorem claim_C7_witness :
    (∀ e ∈ (ingressHandler "/data" ["123"] deniedCtx allOkEnv).1,
      e = Effect.log) ∧
    (ingressHandler "/data" ["123"] deniedCtx allOkEnv).2 = false :=
  claim_C7 "/data" ["123"] deniedCtx allOkEnv (by decide)

/-- Claim C9: both discovery paths of the egress reconciler only ever hand a
filename to processJob when it starts with a comma: the startup scan filters
directory entries, and the watch loop filters event paths. -/
theorem claim_C9 :
    (∀ entries : List DirEntry, ∀ n ∈ scanJobs entries,
      startsWithComma n = true) ∧
    (∀ (processing : List String) (statOk metaOk : String → Bool)
      (ev : FsEvent), ∀ n ∈ egressEventNames processing statOk metaOk ev,
      startsWithComma n = true) := by
  constructor
  · intro entries n hn
    unfold scanJobs at hn
    rw [List.mem_mergeSort] at hn
    obtain ⟨e, he, rfl⟩ := List.mem_map.mp hn
    exact (Bool.and_eq_true _ _).mp (List.mem_filter.mp he).2 |>.2
  · intro processing statOk metaOk ev n hn
    unfold egressEventNames at hn
    split at hn
    · simp at hn
    · obtain ⟨p, _, hfp⟩ := List.mem_filterMap.mp hn
      simp only at hfp
      by_cases h1 : startsWithComma (jsBasename p) = true
      · split at hfp
        · exact absurd hfp (by simp)
        · split at hfp
          · exact absurd hfp (by simp)
          · split at hfp
            · exact absurd hfp (by simp)
            · cases hfp
              exact h1
      · rw [if_pos (by simp [h1])] at hfp
        exact absurd hfp (by simp)

theorem claim_C9_witness :
    startsWithComma ",a" = true ∧ startsWithComma ",j1" = true :=
  ⟨claim_C9.1 [⟨",a", true⟩, ⟨"other", true⟩] ",a"
     (by unfold scanJobs; rw [List.mem_mergeSort]; decide),
   claim_C9.2 [] (fun _ => true) (fun _ => true)
     ⟨"modify", ["/q/completed/,j1"]⟩ ",j1" (by decide)⟩

/- ===================== Chunking lemmas (C6, C8) ===================== -/

theorem chunkSplitIdx_le (rem : List Char) : chunkSplitIdx rem ≤ 4096 := by
  unfold chunkSplitIdx
  rcases hE : lastIdxOf (rem.take 4097) '\n' with _ | i
  · simp
  · simp only []
    have h1 := lastIdxOf_lt_length hE
    have h2 : (rem.take 4097).length ≤ 4097 := by
      rw [List.length_take]
      exact Nat.min_le_left _ _
    omega

theorem chunkLoop_eq_pos {e : List Char} (h : e.length > 4096) :
    chunkLoop e =
      (if (trimChars (e.take (chunkSplitIdx e))).isEmpty then []
       else [trimChars (e.take (chunkSplitIdx e))]) ++
      chunkLoop (trimChars (e.drop (chunkSplitIdx e))) := by
  rw [chunkLoop, dif_pos h]

theorem chunkLoop_eq_neg {e : List Char} (h : ¬e.length > 4096) :
    chunkLoop e = if e.isEmpty then [] else [e] := by
  rw [chunkLoop, dif_neg h]

theorem sendSplitLoop_eq_pos {e : List Char} (h : e.length > 4096)
    (chatId replyTo : Int) (ok : Nat → Bool) (i : Nat) :
    sendSplitLoop chatId replyTo ok e i =
      if (trimChars (e.take (chunkSplitIdx e))).isEmpty then
        sendSplitLoop chatId replyTo ok (trimChars (e.drop (chunkSplitIdx e))) i
      else if ok i then
        (Effect.sendMessage chatId (trimChars (e.take (chunkSplitIdx e)))
            replyTo ::
          (sendSplitLoop chatId replyTo ok
            (trimChars (e.drop (chunkSplitIdx e))) (i + 1)).1,
         (sendSplitLoop chatId replyTo ok
            (trimChars (e.drop (chunkSplitIdx e))) (i + 1)).2)
      else ([Effect.sendMessage chatId
          (trimChars (e.take (chunkSplitIdx e))) replyTo], false) := by
  rw [sendSplitLoop, dif_pos h]

theorem sendSplitLoop_eq_neg {e : List Char} (h : ¬e.length > 4096)
    (chatId replyTo : Int) (ok : Nat → Bool) (i : Nat) :
    sendSplitLoop chatId replyTo ok e i =
      if e.isEmpty then ([], true)
      else if ok i then ([Effect.sendMessage chatId e replyTo], true)
      else ([Effect.sendMessage chatId e replyTo], false) := by
  rw [sendSplitLoop, dif_neg h]

theorem chunkLoop_mem (e : List Char) :
    ∀ c ∈ chunkLoop e, (c.length ≤ 4096 ∧ c ≠ []) ∧ (trimChars c = c ∨ c = e) := by
  induction e using chunkLoop.induct with
  | case1 x hlen rest ih =>
    intro c hc
    rw [chunkLoop_eq_pos hlen] at hc
    rcases List.mem_append.mp hc with hm | hm
    · by_cases hch : (trimChars (x.take (chunkSplitIdx x))).isEmpty
      · rw [if_pos hch] at hm
        simp at hm
      · rw [if_neg hch] at hm
        rw [List.mem_singleton] at hm
        subst hm
        refine ⟨⟨?_, ?_⟩, Or.inl (trimChars_idem _)⟩
        · calc (trimChars (x.take (chunkSplitIdx x))).length
              ≤ (x.take (chunkSplitIdx x)).length := trimChars_length_le _
            _ ≤ chunkSplitIdx x := by
                rw [List.length_take]; exact Nat.min_le_left _ _
            _ ≤ 4096 := chunkSplitIdx_le x
        · intro hnil
          exact hch (by rw [hnil]; rfl)
    · obtain ⟨h1, h2⟩ := ih c hm
      refine ⟨h1, Or.inl ?_⟩
      rcases h2 with h2 | h2
      · exact h2
      · rw [h2]
        exact trimChars_idem _
  | case2 x hlen hemp =>
    intro c hc
    rw [chunkLoop_eq_neg hlen, if_pos hemp] at hc
    simp at hc
  | case3 x hlen hemp =>
    intro c hc
    rw [chunkLoop_eq_neg hlen, if_neg hemp] at hc
    rw [List.mem_singleton] at hc
    subst hc
    refine ⟨⟨by omega, fun hnil => hemp (by rw [hnil]; rfl)⟩, Or.inr rfl⟩

theorem sendSplitLoop_all_ok (chatId replyTo : Int) (ok : Nat → Bool)
    (hok : ∀ j, ok j = true) (e : List Char) : ∀ i : Nat,
    sendSplitLoop chatId replyTo ok e i =
      ((chunkLoop e).map (fun c => Effect.sendMessage chatId c replyTo),
       true) := by
  induction e using chunkLoop.induct with
  | case1 x hlen rest ih =>
    intro i
    rw [sendSplitLoop_eq_pos hlen, chunkLoop_eq_pos hlen]
    by_cases hch : (trimChars (x.take (chunkSplitIdx x))).isEmpty
    · rw [if_pos hch, if_pos hch, ih i]
      simp
    · rw [if_neg hch, if_neg hch, if_pos (hok i), ih (i + 1)]
      simp
  | case2 x hlen hemp =>
    intro i
    rw [sendSplitLoop_eq_neg hlen, chunkLoop_eq_neg hlen, if_pos hemp,
      if_pos hemp]
    simp
  | case3 x hlen hemp =>
    intro i
    rw [sendSplitLoop_eq_neg hlen, chunkLoop_eq_neg hlen, if_neg hemp,
      if_neg hemp, if_pos (hok i)]
    simp

theorem sendSplitLoop_sends (chatId replyTo : Int) (ok : Nat → Bool)
    (e : List Char) : ∀ i : Nat,
    ∀ x ∈ (sendSplitLoop chatId replyTo ok e i).1,
      ∃ c, x = Effect.sendMessage chatId c replyTo := by
  induction e using chunkLoop.induct with
  | case1 x hlen rest ih =>
    intro i y hy
    rw [sendSplitLoop_eq_pos hlen] at hy
    by_cases hch : (trimChars (x.take (chunkSplitIdx x))).isEmpty
    · rw [if_pos hch] at hy
      exact ih i y hy
    · rw [if_neg hch] at hy
      by_cases hoki : ok i
      · rw [if_pos hoki] at hy
        rcases List.mem_cons.mp hy with hy | hy
        · exact ⟨_, hy⟩
        · exact ih (i + 1) y hy
      · rw [if_neg hoki] at hy
        rw [List.mem_singleton] at hy
        exact ⟨_, hy⟩
  | case2 x hlen hemp =>
    intro i y hy
    rw [sendSplitLoop_eq_neg hlen, if_pos hemp] at hy
    simp at hy
  | case3 x hlen hemp =>
    intro i y hy
    rw [sendSplitLoop_eq_neg hlen, if_neg hemp] at hy
    by_cases hoki : ok i
    · rw [if_pos hoki, List.mem_singleton] at hy
      exact ⟨_, hy⟩
    · rw [if_neg hoki, List.mem_singleton] at hy
      exact ⟨_, hy⟩

theorem replicate_not_isEmpty (n : Nat) (hn : n ≠ 0) (a : Char) :
    ¬(List.replicate n a).isEmpty = true := by
  rw [List.isEmpty_iff]
  intro h
  have := congrArg List.length h
  rw [List.length_replicate] at this
  simp only [List.length_nil] at this
  omega

theorem chunkSplitIdx_AB :
    chunkSplitIdx (List.replicate 4000 'A' ++ '\n' :: List.replicate 1000 'B') =
      4000 := by
  unfold chunkSplitIdx
  have hnot : '\n' ∉ List.replicate 96 'B' := by
    intro hm
    exact absurd (List.mem_replicate.mp hm).2 (by decide)
  have h1 : (4097 : Nat) = (List.replicate 4000 'A').length + 97 := by
    rw [List.length_replicate]
  have htake : (List.replicate 4000 'A' ++
      '\n' :: List.replicate 1000 'B').take 4097 =
      List.replicate 4000 'A' ++ '\n' :: List.replicate 96 'B' := by
    have h2 : List.take 97 ('\n' :: List.replicate 1000 'B') =
        '\n' :: List.replicate 96 'B' := by decide
    rw [h1, List.take_append, h2]
  rw [htake, lastIdxOf_append _ _ hnot]
  simp only []
  rw [List.length_replicate]

theorem chunkLoop_AB :
    chunkLoop (List.replicate 4000 'A' ++ '\n' :: List.replicate 1000 'B') =
      [List.replicate 4000 'A', List.replicate 1000 'B'] := by
  have hlen : (List.replicate 4000 'A' ++
      '\n' :: List.replicate 1000 'B').length > 4096 := by
    rw [List.length_append, List.length_cons, List.length_replicate,
      List.length_replicate]
    omega
  rw [chunkLoop_eq_pos hlen, chunkSplitIdx_AB]
  rw [List.take_left' (by rw [List.length_replicate]),
    List.drop_left' (by rw [List.length_replicate])]
  have hA : trimChars (List.replicate 4000 'A') = List.replicate 4000 'A' :=
    trimChars_of_no_ws (by
      intro c hc
      rcases List.mem_replicate.mp hc with ⟨_, rfl⟩
      decide)
  have hB : trimChars ('\n' :: List.replicate 1000 'B') =
      List.replicate 1000 'B' := by
    rw [trimChars_cons_ws _ _ (by decide)]
    exact trimChars_of_no_ws (by
      intro c hc
      rcases List.mem_replicate.mp hc with ⟨_, rfl⟩
      decide)
  rw [hA, hB]
  rw [if_neg (replicate_not_isEmpty 4000 (by omega) 'A')]
  rw [chunkLoop_eq_neg (by rw [List.length_replicate]; omega),
    if_neg (replicate_not_isEmpty 1000 (by omega) 'B')]
  rfl

/-- Claim C6, amended: every chunk the splitter delivers is nonempty and at
most 4096 characters; every chunk is trimmed except possibly a final
remainder equal to the whole escaped text (which the source sends without a
further trim); when all sends succeed the delivered sequence is exactly the
chunk sequence in order, every chunk a reply to the same message id; and the
4000-A/newline/1000-B example splits into exactly those two chunks. -/
theorem claim_C6 :
    (∀ e : List Char, ∀ c ∈ chunkLoop e, c.length ≤ 4096 ∧ c ≠ []) ∧
    (∀ e : List Char, ∀ c ∈ chunkLoop e, trimChars c = c ∨ c = e) ∧
    (∀ (esc : List Char → List Char) (chatId replyTo : Int)
      (text : List Char) (ok : Nat → Bool), (∀ j, ok j = true) →
      sendSplitMessage esc chatId text replyTo ok =
        ((chunkLoop (esc text)).map
          (fun c => Effect.sendMessage chatId c replyTo), true)) ∧
    chunkLoop (List.replicate 4000 'A' ++ '\n' :: List.replicate 1000 'B') =
      [List.replicate 4000 'A', List.replicate 1000 'B'] :=
  ⟨fun e c hc => (chunkLoop_mem e c hc).1,
   fun e c hc => (chunkLoop_mem e c hc).2,
   fun esc chatId replyTo text ok hok =>
     sendSplitLoop_all_ok chatId replyTo ok hok (esc text) 0,
   chunkLoop_AB⟩

/-- Claim C6 as stated is false at the escaped text "a\n": the single
delivered chunk is the untrimmed text itself (the final remainder is sent
without trimming when no split occurred), yet "a\n" is not trimmed. -/
theorem claim_C6_cex :
    sendSplitMessage (fun s => s) 5 "a\n".data 7 (fun _ => true) =
      ([Effect.sendMessage 5 "a\n".data 7], true) ∧
    trimChars "a\n".data ≠ "a\n".data := by
  constructor
  · unfold sendSplitMessage
    rw [sendSplitLoop_eq_neg (by decide)]
    rw [if_neg (by decide), if_pos rfl]
  · decide

theorem claim_C6_witness :
    ("hi".data.length ≤ 4096 ∧ "hi".data ≠ []) ∧
    (trimChars "hi".data = "hi".data ∨ "hi".data = "hi".data) ∧
    sendSplitMessage (fun s => s) 5 "hi".data 7 (fun _ => true) =
      ((chunkLoop "hi".data).map (fun c => Effect.sendMessage 5 c 7),
       true) := by
  have hmem : "hi".data ∈ chunkLoop "hi".data := by
    rw [chunkLoop_eq_neg (by decide), if_neg (by decide)]
    exact List.mem_singleton.mpr rfl
  exact ⟨claim_C6.1 "hi".data "hi".data hmem,
    claim_C6.2.1 "hi".data "hi".data hmem,
    claim_C6.2.2.1 (fun s => s) 5 7 "hi".data (fun _ => true) (fun _ => rfl)⟩

/-- Claim C8: processJob retires the job file only after delivery succeeded.
When a send fails, the error propagates to the per-job boundary and no rename
is performed, so the job file stays at its terminal-directory path; when
every delivery call succeeds (and the rename resolves), the rename into the
Message Directory comes after all delivery calls in the trace, and the Job
Link is removed exactly when lstat reports a symlink. -/
theorem claim_C8 (esc : List Char → List Char)
    (dataDir scanDir jobName : String) (env : EgressEnv) (m : JobMeta)
    (r : List Char) (hm : env.meta = some m) (hr : env.raw = some r)
    (hout : (stripOutput r).isEmpty = false) (hact : env.sendActionOk = true) :
    ((sendSplitMessage esc m.chatId (stripOutput r) m.messageId env.sendOk).2
        = false →
      processJob esc dataDir scanDir jobName env =
        (Effect.sendChatAction m.chatId ::
          (sendSplitMessage esc m.chatId (stripOutput r) m.messageId
            env.sendOk).1, true) ∧
      ∀ a b : String,
        Effect.rename a b ∉ (processJob esc dataDir scanDir jobName env).1) ∧
    ((sendSplitMessage esc m.chatId (stripOutput r) m.messageId env.sendOk).2
        = true →
      env.renameOk = true →
      processJob esc dataDir scanDir jobName env =
        (Effect.sendChatAction m.chatId ::
          ((sendSplitMessage esc m.chatId (stripOutput r) m.messageId
            env.sendOk).1 ++
           Effect.rename (scanDir ++ "/" ++ jobName)
             (dataDir ++ "/" ++ jobName ++ ".d" ++ "/" ++ jobName) ::
           ((match env.lstatIsSymlink with
             | some true =>
               [Effect.removeFile (dataDir ++ "/" ++ jobName ++ ".d")]
             | _ => []) ++ [Effect.log])), false)) := by
  constructor
  · intro hs
    have hproc : processJob esc dataDir scanDir jobName env =
        (Effect.sendChatAction m.chatId ::
          (sendSplitMessage esc m.chatId (stripOutput r) m.messageId
            env.sendOk).1, true) := by
      unfold processJob
      rw [hm, hr]
      simp [hout, hact, hs]
    refine ⟨hproc, ?_⟩
    intro a b hmem
    rw [hproc] at hmem
    rcases List.mem_cons.mp hmem with hco | hco
    · exact Effect.noConfusion hco
    · obtain ⟨c, hc⟩ := sendSplitLoop_sends m.chatId m.messageId env.sendOk
        (esc (stripOutput r)) 0 _ hco
      exact Effect.noConfusion hc
  · intro hs hrn
    unfold processJob
    rw [hm, hr]
    simp [hout, hact, hs, hrn]

theorem claim_C8_witness :
    processJob (fun s => s) "/data" "/q/completed" ",job" egOkEnv =
      (Effect.sendChatAction 123 ::
        ((sendSplitMessage (fun s => s) 123
          (stripOutput "echo\nanswer line\nexit".data) 456
          egOkEnv.sendOk).1 ++
         Effect.rename ("/q/completed" ++ "/" ++ ",job")
           ("/data" ++ "/" ++ ",job" ++ ".d" ++ "/" ++ ",job") ::
         ([Effect.removeFile ("/data" ++ "/" ++ ",job" ++ ".d")] ++
          [Effect.log])), false) := by
  have h2 := (claim_C8 (fun s => s) "/data" "/q/completed" ",job" egOkEnv
    { chatId := 123, messageId := 456, userId := none }
    "echo\nanswer line\nexit".data rfl rfl (by decide) rfl).2
  have hsend : (sendSplitMessage (fun s => s) 123
      (stripOutput "echo\nanswer line\nexit".data) 456 egOkEnv.sendOk).2 =
      true := by
    unfold sendSplitMessage
    rw [sendSplitLoop_all_ok 123 456 egOkEnv.sendOk (fun _ => rfl)]
  exact h2 hsend rfl

/- ===================== Ingress handler lemmas (C1, C2, C3, C10) ===================== -/

theorem ingressHandler_admitted (dataDir : String) (allowedIds : List String)
    (ctx : IngressCtx) (env : IngressEnv) (cid mid : Int)
    (hcid : ctx.chatId = some cid)
    (hmid : ctx.message.bind (fun m => m.message_id) = some mid)
    (hallow : isAllowedB allowedIds ctx.fromId = true)
    (hcontent : (msgTextOf ctx.message == "" &&
      (extractAttachments ctx.message).isEmpty) = false)
    (hact : env.replyAction1Ok = true) :
    ingressHandler dataDir allowedIds ctx env =
      (Effect.log :: Effect.chatAction ::
        ((ingressTryBody dataDir env cid mid ctx.fromId
            (msgTextOf ctx.message) (quoteOf ctx.message)
            (extractAttachments ctx.message)).1 ++
         (if (ingressTryBody dataDir env cid mid ctx.fromId
              (msgTextOf ctx.message) (quoteOf ctx.message)
              (extractAttachments ctx.message)).2
          then [Effect.logError] else [])), false) := by
  unfold ingressHandler
  rw [hcid, hmid]
  simp only []
  rw [hallow, hcontent]
  simp [hact]

theorem ingressTryBody_mkdir_mem (dataDir : String) (env : IngressEnv)
    (cid mid : Int) (uid : Option Int) (text quote : String)
    (atts : List AttachmentInfo) :
    Effect.mkdir (getMessageDir dataDir "telegram"
        (toString cid ++ "_" ++ toString mid)) 493 ∈
      (ingressTryBody dataDir env cid mid uid text quote atts).1 := by
  unfold ingressTryBody
  by_cases hmk : env.mkdirMsgDirOk
  · simp only [hmk, Bool.not_true]
    rw [if_neg (by simp)]
    split <;> simp
  · simp [hmk]

/-- Claim C2 (amended): once the initial chat acknowledgment has resolved,
the handler never lets an exception escape — every failure inside the
persistence/enqueue phase is caught, logged, and turned into a normal
return. -/
theorem claim_C2 (dataDir : String) (allowedIds : List String)
    (ctx : IngressCtx) (env : IngressEnv)
    (hact : env.replyAction1Ok = true) :
    (ingressHandler dataDir allowedIds ctx env).2 = false := by
  unfold ingressHandler
  split
  · simp only [hact, Bool.not_true, Bool.false_eq_true, if_false]
    split <;> rfl
  · rfl

/-- Claim C2 as stated is false: the first replyWithChatAction sits outside
the try-block (cli.ts 286), so its rejection escapes the handler.  Here a
concrete admitted message with a failing initial acknowledgment makes the
handler raise. -/
theorem claim_C2_cex :
    (ingressHandler "/data" ["123"] sampleCtx
      { allOkEnv with replyAction1Ok := false }).2 = true := by decide

theorem claim_C2_witness :
    (ingressHandler "/data" ["123"] sampleCtx allOkEnv).2 = false :=
  claim_C2 "/data" ["123"] sampleCtx allOkEnv rfl

/-- Claim C3 (amended): for every accepted message the handler creates the
Message Directory with mode 0o755 = 493 (owner rwx, group and others
read+execute), not owner-only 0o700. -/
theorem claim_C3 (dataDir : String) (allowedIds : List String)
    (ctx : IngressCtx) (env : IngressEnv) (cid mid : Int)
    (hcid : ctx.chatId = some cid)
    (hmid : ctx.message.bind (fun m => m.message_id) = some mid)
    (hallow : isAllowedB allowedIds ctx.fromId = true)
    (hcontent : (msgTextOf ctx.message == "" &&
      (extractAttachments ctx.message).isEmpty) = false)
    (hact : env.replyAction1Ok = true) :
    Effect.mkdir (getMessageDir dataDir "telegram"
        (toString cid ++ "_" ++ toString mid)) 493 ∈
      (ingressHandler dataDir allowedIds ctx env).1 := by
  rw [ingressHandler_admitted dataDir allowedIds ctx env cid mid hcid hmid
    hallow hcontent hact]
  simp only [List.mem_cons, List.mem_append]
  exact Or.inr (Or.inr (Or.inl
    (ingressTryBody_mkdir_mem dataDir env cid mid ctx.fromId
      (msgTextOf ctx.message) (quoteOf ctx.message)
      (extractAttachments ctx.message))))

/-- Claim C3 as stated is false: at a concrete accepted message the Message
Directory mkdir carries mode 493 = 0o755, and no mkdir with owner-only mode
448 = 0o700 appears in the trace. -/
theorem claim_C3_cex :
    Effect.mkdir "/data/messages/telegram/456_789" 493 ∈
      (ingressHandler "/data" ["123"] sampleCtx allOkEnv).1 ∧
    Effect.mkdir "/data/messages/telegram/456_789" 448 ∉
      (ingressHandler "/data" ["123"] sampleCtx allOkEnv).1 := by
  decide

theorem claim_C3_witness :
    Effect.mkdir (getMessageDir "/data" "telegram"
        (toString (456 : Int) ++ "_" ++ toString (789 : Int))) 493 ∈
      (ingressHandler "/data" ["123"] sampleCtx allOkEnv).1 :=
  claim_C3 "/data" ["123"] sampleCtx allOkEnv 456 789 rfl rfl (by decide)
    (by decide) rfl

/-- Claim C10: when the Job Link symlink creation fails after a successful
queue submission, the commit phase of the handler logs the error, still
writes meta.json into the Message Directory, still logs the job as queued,
and returns normally. -/
theorem claim_C10 (dataDir : String) (env : IngressEnv) (messageDir : String)
    (cid mid : Int) (uid : Option Int) (prompt sourceId : String)
    (hra : env.replyAction2Ok = true) (hwp : env.writePromptOk = true)
    (success : String) (hnq : env.nqResult = some (true, success))
    (hjob : (strTrim success == "") = false)
    (hsym : env.symlinkOk = false) (hwm : env.writeMetaOk = true) :
    commitPhase dataDir env messageDir cid mid uid prompt sourceId =
      ([Effect.chatAction,
        Effect.writeFile (messageDir ++ "/prompt.txt") prompt,
        Effect.queueSubmit ("telegram:" ++ sourceId),
        Effect.symlink messageDir
          (dataDir ++ "/" ++ strTrim success ++ ".d"),
        Effect.logError,
        Effect.writeFile (messageDir ++ "/meta.json")
          (metaJson cid mid uid),
        Effect.log], false) := by
  unfold commitPhase
  rw [hnq]
  simp [hra, hwp, hjob, hsym, hwm]

theorem claim_C10_witness :
    commitPhase "/data" { allOkEnv with symlinkOk := false }
      "/data/messages/telegram/456_789" 456 789 (some 123) "hello"
      "456_789" =
      ([Effect.chatAction,
        Effect.writeFile ("/data/messages/telegram/456_789" ++ "/prompt.txt")
          "hello",
        Effect.queueSubmit ("telegram:" ++ "456_789"),
        Effect.symlink "/data/messages/telegram/456_789"
          ("/data" ++ "/" ++ strTrim ",job" ++ ".d"),
        Effect.logError,
        Effect.writeFile ("/data/messages/telegram/456_789" ++ "/meta.json")
          (metaJson 456 789 (some 123)),
        Effect.log], false) :=
  claim_C10 "/data" { allOkEnv with symlinkOk := false }
    "/data/messages/telegram/456_789" 456 789 (some 123) "hello" "456_789"
    rfl rfl ",job" rfl (by decide) rfl rfl

/- ===================== Prompt assembly (C1) ===================== -/

theorem length_pos_of_isEmpty_false {α : Type} {l : List α}
    (h : l.isEmpty = false) : l.length > 0 := by
  cases l with
  | nil => simp at h
  | cons x xs => simp

theorem buildPrompt_eq_amended (text quote : String) (paths : List String)
    (hq : (quote == "") = false) (hp : paths.length > 0) :
    buildPrompt text quote paths = amendedOrderPrompt text quote paths := by
  unfold buildPrompt amendedOrderPrompt
  rw [hq]
  simp only [Bool.false_eq_true, if_false, if_pos hp]
  congr 1
  simp only [String.append_assoc]

theorem attachPhase_staged (env : IngressEnv) (messageDir text : String)
    (atts : List AttachmentInfo) (hne : atts.isEmpty = false)
    (hmk : env.mkdirAttachDirOk = true)
    (hst : (stageLoop env.downloadOk (messageDir ++ "/attachments")
      atts 0).2.isEmpty = false) :
    attachPhase env messageDir text atts =
      (Effect.mkdir (messageDir ++ "/attachments") 493 ::
        (stageLoop env.downloadOk (messageDir ++ "/attachments") atts 0).1,
       (stageLoop env.downloadOk (messageDir ++ "/attachments") atts 0).2,
       PhaseOut.cont) := by
  unfold attachPhase
  rw [hne]
  simp [hmk, hst]

theorem ingressTryBody_cont (dataDir : String) (env : IngressEnv)
    (cid mid : Int) (uid : Option Int) (text quote : String)
    (atts : List AttachmentInfo) (hmk : env.mkdirMsgDirOk = true)
    (hap : (attachPhase env (getMessageDir dataDir "telegram"
      (toString cid ++ "_" ++ toString mid)) text atts).2.2 =
      PhaseOut.cont) :
    ingressTryBody dataDir env cid mid uid text quote atts =
      (Effect.mkdir (getMessageDir dataDir "telegram"
          (toString cid ++ "_" ++ toString mid)) 493 ::
        ((attachPhase env (getMessageDir dataDir "telegram"
            (toString cid ++ "_" ++ toString mid)) text atts).1 ++
         (commitPhase dataDir env (getMessageDir dataDir "telegram"
            (toString cid ++ "_" ++ toString mid)) cid mid uid
            (buildPrompt text quote
              (attachPhase env (getMessageDir dataDir "telegram"
                (toString cid ++ "_" ++ toString mid)) text atts).2.1)
            (toString cid ++ "_" ++ toString mid)).1),
       (commitPhase dataDir env (getMessageDir dataDir "telegram"
          (toString cid ++ "_" ++ toString mid)) cid mid uid
          (buildPrompt text quote
            (attachPhase env (getMessageDir dataDir "telegram"
              (toString cid ++ "_" ++ toString mid)) text atts).2.1)
          (toString cid ++ "_" ++ toString mid)).2) := by
  unfold ingressTryBody
  simp only [hmk, Bool.not_true, Bool.false_eq_true, if_false]
  rw [hap]
  simp

theorem commitPhase_prompt_mem (dataDir : String) (env : IngressEnv)
    (messageDir : String) (cid mid : Int) (uid : Option Int)
    (prompt sourceId : String) (hra : env.replyAction2Ok = true) :
    Effect.writeFile (messageDir ++ "/prompt.txt") prompt ∈
      (commitPhase dataDir env messageDir cid mid uid prompt sourceId).1 := by
  unfold commitPhase
  simp only [hra, Bool.not_true, Bool.false_eq_true, if_false]
  by_cases hwp : env.writePromptOk
  · simp only [hwp, Bool.not_true, Bool.false_eq_true, if_false]
    rcases hnq : env.nqResult with _ | r
    · simp
    · simp only []
      split
      · simp
      · split <;> simp
  · simp [hwp]

/-- Claim C1 (amended): for an accepted message with a quoted reply and at
least one successfully staged attachment, the prompt written to prompt.txt
concatenates, in this order, the attachment manifest (one line per staged
attachment, 1-indexed), then the quoted-reply block, then the raw text, with
surrounding whitespace trimmed. -/
theorem claim_C1 (dataDir : String) (allowedIds : List String)
    (ctx : IngressCtx) (env : IngressEnv) (cid mid : Int)
    (hcid : ctx.chatId = some cid)
    (hmid : ctx.message.bind (fun m => m.message_id) = some mid)
    (hallow : isAllowedB allowedIds ctx.fromId = true)
    (hcontent : (msgTextOf ctx.message == "" &&
      (extractAttachments ctx.message).isEmpty) = false)
    (hact : env.replyAction1Ok = true)
    (hmk : env.mkdirMsgDirOk = true)
    (hne : (extractAttachments ctx.message).isEmpty = false)
    (hmkA : env.mkdirAttachDirOk = true)
    (hst : (stageLoop env.downloadOk (getMessageDir dataDir "telegram"
        (toString cid ++ "_" ++ toString mid) ++ "/attachments")
        (extractAttachments ctx.message) 0).2.isEmpty = false)
    (hq : (quoteOf ctx.message == "") = false)
    (hra : env.replyAction2Ok = true) :
    Effect.writeFile (getMessageDir dataDir "telegram"
        (toString cid ++ "_" ++ toString mid) ++ "/prompt.txt")
      (amendedOrderPrompt (msgTextOf ctx.message) (quoteOf ctx.message)
        (stageLoop env.downloadOk (getMessageDir dataDir "telegram"
          (toString cid ++ "_" ++ toString mid) ++ "/attachments")
          (extractAttachments ctx.message) 0).2) ∈
      (ingressHandler dataDir allowedIds ctx env).1 := by
  rw [ingressHandler_admitted dataDir allowedIds ctx env cid mid hcid hmid
    hallow hcontent hact]
  have hap := attachPhase_staged env (getMessageDir dataDir "telegram"
    (toString cid ++ "_" ++ toString mid)) (msgTextOf ctx.message)
    (extractAttachments ctx.message) hne hmkA hst
  have hbody := ingressTryBody_cont dataDir env cid mid ctx.fromId
    (msgTextOf ctx.message) (quoteOf ctx.message)
    (extractAttachments ctx.message) hmk (by rw [hap])
  rw [hbody]
  simp only [List.mem_cons, List.mem_append]
  refine Or.inr (Or.inr (Or.inl (Or.inr ?_)))
  have hpaths : (attachPhase env (getMessageDir dataDir "telegram"
      (toString cid ++ "_" ++ toString mid)) (msgTextOf ctx.message)
      (extractAttachments ctx.message)).2.1 =
      (stageLoop env.downloadOk (getMessageDir dataDir "telegram"
        (toString cid ++ "_" ++ toString mid) ++ "/attachments")
        (extractAttachments ctx.message) 0).2 := by
    rw [hap]
  rw [hpaths]
  rw [buildPrompt_eq_amended _ _ _ hq (length_pos_of_isEmpty_false hst)]
  exact Or.inr (commitPhase_prompt_mem dataDir env _ cid mid ctx.fromId _ _
    hra)

/-- Claim C1 as stated is false: the code prepends the quote block first and
the attachment manifest afterwards, so the written prompt starts with the
manifest, not with the quote.  At a concrete quoted message with one staged
photo the handler writes the attachments-first prompt, which differs from
the quote-first prompt the claim describes. -/
theorem claim_C1_cex :
    buildPrompt "t" "q" ["/a/f"] = "Attachments:\n1. @/a/f\n\nQuote: q\n\nt" ∧
    claimOrderPrompt "t" "q" ["/a/f"] =
      "Quote: q\n\nAttachments:\n1. @/a/f\n\nt" ∧
    buildPrompt "t" "q" ["/a/f"] ≠ claimOrderPrompt "t" "q" ["/a/f"] ∧
    Effect.writeFile "/data/messages/telegram/456_789/prompt.txt"
        "Attachments:\n1. @/data/messages/telegram/456_789/attachments/photo.jpg\n\nQuote: earlier message\n\ncaption text" ∈
      (ingressHandler "/data" ["123"] quotedPhotoCtx allOkEnv).1 := by
  refine ⟨by decide, by decide, by decide, by decide⟩

theorem claim_C1_witness :
    Effect.writeFile (getMessageDir "/data" "telegram"
        (toString (456 : Int) ++ "_" ++ toString (789 : Int)) ++
        "/prompt.txt")
      (amendedOrderPrompt (msgTextOf quotedPhotoCtx.message)
        (quoteOf quotedPhotoCtx.message)
        (stageLoop allOkEnv.downloadOk (getMessageDir "/data" "telegram"
          (toString (456 : Int) ++ "_" ++ toString (789 : Int)) ++
          "/attachments") (extractAttachments quotedPhotoCtx.message) 0).2) ∈
      (ingressHandler "/data" ["123"] quotedPhotoCtx allOkEnv).1 :=
  claim_C1 "/data" ["123"] quotedPhotoCtx allOkEnv 456 789 rfl rfl
    (by decide) (by decide) rfl rfl (by decide) rfl (by decide) (by decide)
    rfl

end Muxclaw
